import Mathlib

/-!
# Verification of `scripts/modules/cl_v1tov2.py`

Shallow embedding of the v1-to-v2 checklist converter:

* `generate_v2` (record transformer) and its helpers
  (`get_standard_service_name`, severity / source / resourceTypes mapping);
* `store_v2` (record store) over an explicit filesystem state,
  together with `remove_empty_dirs`.

Modelling conventions:

* A Python dict of a V1 item is embedded as a structure of `Option` fields
  (a field is `none` exactly when the key is absent); the fields the code
  reads as strings (`severity`, `source`, `sourceType`, `service`, ...) are
  typed `String`, matching the schema the module assumes.
* Python exceptions are modelled with `Except`/an explicit error component:
  the only raising sites inside the embedded code are the `KeyError` on
  `item['service']` in the resource-type lookup of `generate_v2`, the
  `KeyError` on `item['text']` in the missing-guid branch of `store_v2`
  (v2 records carry `title`, never `text`), and `sys.exit(1)` on an
  unsupported output format.
* `str.lower()` is embedded as character-wise ASCII lower-casing
  (`strLower`), `s.replace(" ", "")` as dropping space characters, and
  `'pat' in s` as substring containment over character lists.
* The filesystem is a pair of a directory list and a file list
  (path, stored record); paths are component lists.  `Path.rglob` is
  embedded as a filter over the file list in list order (walk order);
  directory entries whose names match the glob pattern are not modelled,
  since service/pillar directory names never carry a `.yaml`/`.json`
  suffix in this module's domain.
-/

/-- A path, as a list of components. -/
abbrev FPath := List String

/-- `pat` starts the character list `s`. -/
def startsWith : List Char → List Char → Bool
  | [], _ => true
  | _ :: _, [] => false
  | p :: ps, c :: cs => p == c && startsWith ps cs

/-- `pat` occurs somewhere in the character list `s`. -/
def hasSubList (pat : List Char) : List Char → Bool
  | [] => startsWith pat []
  | c :: cs => startsWith pat (c :: cs) || hasSubList pat cs

/-- Python `pat in s` substring test, over the characters of the strings. -/
def hasSubstr (s pat : String) : Bool :=
  hasSubList pat.data s.data

/-- Python `str.lower()` (kernel-computable form of `String.toLower`;
both lower-case ASCII letters character-wise). -/
def strLower (s : String) : String :=
  String.mk (s.data.map Char.toLower)

/-- Python `s.replace(" ", "")`: drop every space character. -/
def stripSpaces (s : String) : String :=
  String.mk (s.data.filter (fun c => c != ' '))

/-- One entry of the externally supplied service dictionary:
`{names: [...], service: ..., arm: ...}`. -/
structure SvcEntry where
  names : List String
  service : String
  arm : String
deriving DecidableEq, Repr

/-- A V1 checklist item: a flat mapping with all-optional keys.
`none` models key absence. -/
structure V1Item where
  guid : Option String := none
  text : Option String := none
  description : Option String := none
  waf : Option String := none
  severity : Option String := none
  category : Option String := none
  subcategory : Option String := none
  id : Option String := none
  graph : Option String := none
  link : Option String := none
  training : Option String := none
  source : Option String := none
  sourceType : Option String := none
  sourceFile : Option String := none
  service : Option String := none
  recommendationResourceType : Option String := none
deriving DecidableEq, Repr

/-- The parsed top-level document; `items = none` models a JSON document
with no `items` key. -/
structure Checklist where
  items : Option (List V1Item)
deriving DecidableEq, Repr

/-- The `source` mapping of a v2 record: `{type, file?}`. -/
structure Source where
  type : String
  file : Option String := none
deriving DecidableEq, Repr

/-- The `queries` field of a v2 record: `[]` by default, or the mapping
`{arg: <graph>}` when the item had a `graph` key (heterogeneous by design). -/
inductive Queries where
  | emptyList : Queries
  | argMap (graph : String) : Queries
deriving DecidableEq, Repr

/-- A v2 record as built by `generate_v2`.  `Option` fields model key
absence in the emitted dict. -/
structure V2Reco where
  guid : Option String := none
  title : Option String := none
  description : Option String := none
  waf : Option String := none
  severity : Option Nat := none
  labels : List (String × String) := []
  queries : Queries := Queries.emptyList
  links : List String := []
  source : Option Source := none
  service : Option String := none
  resourceTypes : List String := []
deriving DecidableEq, Repr

instance : Inhabited V2Reco := ⟨{}⟩

/-- Python dict assignment `d[k] = v`: overwrite in place if the key
exists, else append (insertion order preserved). -/
def dictInsert (d : List (String × String)) (k v : String) : List (String × String) :=
  if d.any (fun e => e.1 == k) then
    d.map (fun e => if e.1 == k then (k, v) else e)
  else
    d ++ [(k, v)]

/-- `get_standard_service_name(service_name, service_dictionary)`:
scan the dictionary in order, return the first entry's `service` whose
`names` contains the name; with no match or an empty/absent dictionary
return the name unchanged.  (Python returns `service_name` both in the
falsy-dictionary branch and in the no-match branch.) -/
def get_standard_service_name (service_name : String) : List SvcEntry → String
  | [] => service_name
  | svc :: rest =>
    if service_name ∈ svc.names then svc.service
    else get_standard_service_name service_name rest

/-- Severity mapping of `generate_v2` (lines 60-66): case-insensitive
match against high/medium/low; anything else emits no key. -/
def mk_severity : Option String → Option Nat
  | none => none
  | some s =>
    if strLower s = "high" then some 0
    else if strLower s = "medium" then some 1
    else if strLower s = "low" then some 2
    else none

/-- Source mapping of `generate_v2` (lines 86-98): explicit `source`
normalized first (with no fallback when unrecognized), else
`sourceType`/`sourceFile`, else `{type: local, file: input_file}`. -/
def mk_source (input_file : String) (item : V1Item) : Option Source :=
  match item.source with
  | some s =>
    if strLower s = "aprl" ∨ strLower s = "wafsg" then some ⟨strLower s, none⟩
    else if hasSubstr s ".yaml" then some ⟨"aprl", none⟩
    else if hasSubstr s ".md" then some ⟨"wafsg", none⟩
    else none
  | none =>
    match item.sourceType with
    | some st => some ⟨strLower st, item.sourceFile⟩
    | none => some ⟨"local", some input_file⟩

/-- Resource-type computation of `generate_v2` (lines 102-110): use
`recommendationResourceType` if present; else, when a (truthy) service
dictionary is given, read `item['service']` — a `KeyError` when the key
is absent — and append `arm` of every matching entry, in order. -/
def mk_resourceTypes (sd : List SvcEntry) (item : V1Item) : Except String (List String) :=
  match item.recommendationResourceType with
  | some r => Except.ok [r]
  | none =>
    match sd with
    | [] => Except.ok []
    | _ :: _ =>
      match item.service with
      | none => Except.error "service"
      | some s => Except.ok ((sd.filter (fun svc => decide (s ∈ svc.names))).map SvcEntry.arm)

/-- The v2 record built for one item (the field assignments of
lines 51-114), given the already-computed resource types. -/
def mk_reco (input_file : String) (sd : List SvcEntry) (labels : List (String × String))
    (id_label cat_label subcat_label : String) (item : V1Item) (rts : List String) : V2Reco :=
  let labels0 : List (String × String) := []
  let labels1 := match item.category with
    | some c => dictInsert labels0 cat_label c
    | none => labels0
  let labels2 := match item.subcategory with
    | some c => dictInsert labels1 subcat_label c
    | none => labels1
  let labels3 := match item.id with
    | some c => dictInsert labels2 id_label c
    | none => labels2
  { guid := item.guid
    title := item.text
    description := item.description
    waf := item.waf
    severity := mk_severity item.severity
    labels := labels.foldl (fun d kv => dictInsert d kv.1 kv.2) labels3
    queries := match item.graph with
      | some g => Queries.argMap g
      | none => Queries.emptyList
    links := (match item.link with | some l => [l] | none => [])
      ++ (match item.training with | some t => [t] | none => [])
    source := mk_source input_file item
    service := item.service.map (fun s => get_standard_service_name s sd)
    resourceTypes := rts }

/-- Conversion of one V1 item to a v2 record (the body of the item loop
of `generate_v2`, lines 50-116).  The field computations are pure, so the
only effect of the source's statement order that matters is that the
resource-type lookup may raise, aborting the item (and hence the batch). -/
def convert_item (input_file : String) (sd : List SvcEntry) (labels : List (String × String))
    (id_label cat_label subcat_label : String) (item : V1Item) : Except String V2Reco :=
  match mk_resourceTypes sd item with
  | Except.error e => Except.error e
  | Except.ok rts =>
    Except.ok (mk_reco input_file sd labels id_label cat_label subcat_label item rts)

/-- The item loop of `generate_v2`: convert items in order, aborting the
whole batch on the first exception (no per-item isolation). -/
def convert_items (input_file : String) (sd : List SvcEntry) (labels : List (String × String))
    (id_label cat_label subcat_label : String) : List V1Item → Except String (List V2Reco)
  | [] => Except.ok []
  | item :: rest =>
    match convert_item input_file sd labels id_label cat_label subcat_label item with
    | Except.error e => Except.error e
    | Except.ok r =>
      match convert_items input_file sd labels id_label cat_label subcat_label rest with
      | Except.error e => Except.error e
      | Except.ok rs => Except.ok (r :: rs)

/-- An error message printed by `generate_v2`, carrying the input file it
identifies. -/
inductive GenMsg where
  | noItems (input : String) : GenMsg
  | procError (input : String) : GenMsg
deriving DecidableEq, Repr

/-- The input file named by a `generate_v2` error message. -/
def GenMsg.input : GenMsg → String
  | GenMsg.noItems f => f
  | GenMsg.procError f => f

/-- Python `if not lbl: lbl = dflt`: `None` and the empty string are both
falsy. -/
def default_label (l : Option String) (dflt : String) : String :=
  match l with
  | none => dflt
  | some s => if s = "" then dflt else s

/-- `generate_v2(input_file, ...)` (lines 36-123).  `input_doc = none`
models the open/`json.load` step raising (unreadable or malformed input),
caught by the `except` clause.  Returns the optional record list together
with the error messages printed. -/
def generate_v2 (input_doc : Option Checklist) (input_file : String) (sd : List SvcEntry)
    (labels : List (String × String)) (id_label cat_label subcat_label : Option String) :
    Option (List V2Reco) × List GenMsg :=
  let idl := default_label id_label "id"
  let cl := default_label cat_label "area"
  let sl := default_label subcat_label "subarea"
  match input_doc with
  | none => (none, [GenMsg.procError input_file])
  | some doc =>
    match doc.items with
    | none => (none, [GenMsg.noItems input_file])
    | some items =>
      match convert_items input_file sd labels idl cl sl items with
      | Except.ok recos => (some recos, [])
      | Except.error _ => (none, [GenMsg.procError input_file])

/-- The condition under which the item loop of `generate_v2` raises: the
`KeyError` on `item['service']` at line 109 (no `recommendationResourceType`,
truthy service dictionary, no `service` key). -/
def item_raises (sd : List SvcEntry) (item : V1Item) : Prop :=
  item.recommendationResourceType = none ∧ sd ≠ [] ∧ item.service = none

instance (sd : List SvcEntry) (item : V1Item) : Decidable (item_raises sd item) := by
  unfold item_raises; exact inferInstance

/-! ## Filesystem model and `store_v2` -/

/-- Filesystem state: existing directories and files (path with the
stored record), both in creation order. -/
structure FS where
  dirs : List FPath := []
  files : List (FPath × V2Reco) := []
deriving DecidableEq, Repr

/-- The empty filesystem. -/
def emptyFS : FS := {}

/-- `os.makedirs(p)`: create `p` and any missing ancestors (dirs are kept
in a list; already-present prefixes are not duplicated). -/
def addDirL (ds : List FPath) (p : FPath) : List FPath :=
  if p ∈ ds then ds else ds ++ p.inits.filter (fun q => decide (q ∉ ds))

/-- `if not os.path.exists(p): os.makedirs(p)` on the directory part of
the state. -/
def addDir (fs : FS) (p : FPath) : FS :=
  { fs with dirs := addDirL fs.dirs p }

/-- `open(p, 'w')` followed by a dump: replace any file at `p`, append the
new one. -/
def writeFile (fs : FS) (p : FPath) (d : V2Reco) : FS :=
  { fs with files := fs.files.filter (fun e => decide (e.1 ≠ p)) ++ [(p, d)] }

/-- `Path.unlink()` at `p`. -/
def unlink (fs : FS) (p : FPath) : FS :=
  { fs with files := fs.files.filter (fun e => decide (e.1 ≠ p)) }

/-- Whether `p` matches `Path(root).rglob(name)`: a path strictly below
`root` whose last component is `name`. -/
def matchesGlob (root : FPath) (name : String) (p : FPath) : Prop :=
  root <+: p ∧ p ≠ root ∧ p.getLast? = some name

instance (root : FPath) (name : String) (p : FPath) : Decidable (matchesGlob root name p) := by
  unfold matchesGlob; exact inferInstance

/-- Glob on a file list (walk order = list order). -/
def rglobL (l : List (FPath × V2Reco)) (root : FPath) (name : String) : List FPath :=
  (l.map Prod.fst).filter (fun p => decide (matchesGlob root name p))

/-- `list(Path(root).rglob(name))` over the filesystem state. -/
def rglob (fs : FS) (root : FPath) (name : String) : List FPath :=
  rglobL fs.files root name

/-- A directory with no entry strictly below it
(`len(list(p.iterdir())) == 0`, for a prefix-closed directory list). -/
def isEmptyDir (fs : FS) (p : FPath) : Prop :=
  (∀ q ∈ fs.dirs, p <+: q → q = p) ∧ (∀ e ∈ fs.files, p <+: e.1 → e.1 = p)

instance (fs : FS) (p : FPath) : Decidable (isEmptyDir fs p) := by
  unfold isEmptyDir; exact inferInstance

/-- `os.removedirs(p)`: remove the leaf, then prune ancestors that became
empty, bottom-up (recursion bounded by the path length). -/
def removedirsGo : FS → FPath → FS
  | fs, [] => fs
  | fs, c :: cs =>
    let fs' : FS := { fs with dirs := fs.dirs.filter (fun q => decide (q ≠ c :: cs)) }
    let par := (c :: cs).dropLast
    if par ≠ [] ∧ isEmptyDir fs' par then removedirsGo fs' par else fs'
  termination_by _ p => p.length
  decreasing_by simp [List.length_dropLast]

/-- `os.removedirs(p)`. -/
def removedirs (fs : FS) (p : FPath) : FS := removedirsGo fs p

/-- Line 201: `[os.removedirs(p) for p in Path(root).glob('**/*') if
p.is_dir() and len(list(p.iterdir())) == 0]` — the candidate directories
strictly below `root` are listed up front, each condition is evaluated
against the state at its turn. -/
def cleanup_empty (root : FPath) (fs : FS) : FS :=
  (fs.dirs.filter (fun p => decide (root <+: p ∧ p ≠ root))).foldl
    (fun s p => if p ∈ s.dirs ∧ isEmptyDir s p then removedirs s p else s) fs

/-- An error message printed by `store_v2`. -/
inductive Report where
  | conflict (p : FPath) : Report
  | unsupported (fmt : String) : Report
deriving DecidableEq, Repr

/-- An abnormal termination of `store_v2`: an uncaught Python exception,
or `sys.exit`. -/
inductive StoreError where
  | keyError (key : String) : StoreError
  | sysExit (code : Nat) : StoreError
deriving DecidableEq, Repr

/-- The destination subdirectory components for a record:
`<service, spaces removed | "cross-service">` then the optional
`<waf, spaces removed>` (lines 146-152). -/
def recoTail (r : V2Reco) : FPath :=
  (match r.service with
    | some s => [stripSpaces s]
    | none => ["cross-service"])
  ++ (match r.waf with
    | some w => [stripSpaces w]
    | none => [])

/-- The destination directory of a record. -/
def recoDir (root : FPath) (r : V2Reco) : FPath := root ++ recoTail r

/-- The output file name `<guid>.yaml` of a record (meaningful when the
record has a guid). -/
def fnameOf (r : V2Reco) : String := r.guid.getD "" ++ ".yaml"

/-- The destination file path of a record (yaml format). -/
def recoPath (root : FPath) (r : V2Reco) : FPath := recoDir root r ++ [fnameOf r]

/-- The shared write/overwrite/skip logic of both format branches
(lines 157-190): glob the whole tree for the file name; write when free;
on a hit, delete the first match and rewrite when `overwrite`, else
report the conflict (naming the matched path) and skip. -/
def storeAs (fs : FS) (root dir1 : FPath) (fname : String) (overwrite : Bool) (item : V2Reco) :
    FS × List Report × Option StoreError :=
  let output_file := dir1 ++ [fname]
  match rglob fs root fname with
  | [] => (writeFile fs output_file item, [], none)
  | p :: _ =>
    if overwrite then (writeFile (unlink fs p) output_file item, [], none)
    else (fs, [Report.conflict p], none)

/-- The body of the record loop of `store_v2` (lines 144-196).  A record
without a guid hits `print(..., item['text'])` — a `KeyError`, since v2
records store the title under `title` and never carry a `text` key — which
aborts the whole call.  An unsupported format reaches `sys.exit(1)` after
the destination directories were created. -/
def store_record (output_folder : FPath) (output_format : String) (overwrite : Bool)
    (fs : FS) (item : V2Reco) : FS × List Report × Option StoreError :=
  match item.guid with
  | none => (fs, [], some (StoreError.keyError "text"))
  | some guid =>
    let dir1 := recoDir output_folder item
    let fs1 := if dir1 ∈ fs.dirs then fs else addDir fs dir1
    if output_format = "yaml" ∨ output_format = "yml" then
      storeAs fs1 output_folder dir1 (guid ++ ".yaml") overwrite item
    else if output_format = "json" then
      storeAs fs1 output_folder dir1 (guid ++ ".json") overwrite item
    else
      (fs1, [Report.unsupported output_format], some (StoreError.sysExit 1))

/-- The record loop of `store_v2`: process records in order, stopping at
the first abnormal termination. -/
def store_loop (root : FPath) (fmt : String) (ow : Bool) : FS → List V2Reco →
    FS × List Report × Option StoreError
  | fs, [] => (fs, [], none)
  | fs, item :: rest =>
    match store_record root fmt ow fs item with
    | (fs', reps, some e) => (fs', reps, some e)
    | (fs', reps, none) =>
      match store_loop root fmt ow fs' rest with
      | (fs'', reps', e') => (fs'', reps ++ reps', e')

/-- `store_v2(output_folder, checklist, output_format, overwrite)`
(lines 132-203): ensure the root exists, run the record loop, and — when
`overwrite` and the loop completed — prune empty directories. -/
def store_v2 (root : FPath) (checklist : List V2Reco) (fmt : String) (ow : Bool)
    (fs : FS) : FS × List Report × Option StoreError :=
  let fs0 := if root ∈ fs.dirs then fs else addDir fs root
  match store_loop root fmt ow fs0 checklist with
  | (fs1, reps, some e) => (fs1, reps, some e)
  | (fs1, reps, none) => (if ow then cleanup_empty root fs1 else fs1, reps, none)

/-- The immediate subdirectories of `p` (the `dirnames` of `os.walk` at
root `p`). -/
def subdirsOf (fs : FS) (p : FPath) : List FPath :=
  fs.dirs.filter (fun q => decide (p <+: q ∧ q.length = p.length + 1))

/-- `remove_empty_dirs(path)` (lines 126-129): walk the tree bottom-up and
recurse into every subdirectory — the loop body contains no `rmdir`,
`removedirs` or `unlink` call, so the state is only threaded through.
Recursion depth is bounded by explicit fuel (the source recursion is
bounded by the finite directory tree). -/
def remove_empty_dirs : Nat → FS → FPath → FS
  | 0, fs, _ => fs
  | fuel + 1, fs, path =>
    (subdirsOf fs path).foldl (fun s d => remove_empty_dirs fuel s d) fs

/-! ## Concrete fixtures -/

/-- The service dictionary of the spec's worked example. -/
def dict1 : List SvcEntry :=
  [{ names := ["VM", "Virtual Machine"], service := "Virtual Machines",
     arm := "Microsoft.Compute/virtualMachines" }]

/-- An item with no keys at all. -/
def emptyItem : V1Item := {}

/-- The worked example item: `service: "VM"`, no
`recommendationResourceType`. -/
def itemVM : V1Item := { guid := some "abc-123", text := some "Enable X", service := some "VM" }

/-- An item whose explicit `source` matches none of the normalizations. -/
def itemOddSource : V1Item := { guid := some "g-odd", source := some "imported" }

/-- An item with `severity: "HIGH"`. -/
def itemHigh : V1Item := { severity := some "HIGH" }

/-- An item with `source: "myfile.yaml"`. -/
def itemYamlSource : V1Item := { guid := some "g-yaml", source := some "myfile.yaml" }

/-- A v2 record without a guid, as `generate_v2` emits for an item that
only had `text`. -/
def recNoGuid : V2Reco := { title := some "Enable X", source := some ⟨"local", some "in.json"⟩ }

/-- A well-formed v2 record with a guid. -/
def rec1 : V2Reco :=
  { guid := some "abc-123", title := some "Enable X", service := some "Virtual Machines",
    waf := some "Reliability", source := some ⟨"local", some "in.json"⟩ }


/-! ## Transformer lemmas -/

theorem mk_reco_severity (f : String) (sd : List SvcEntry) (labels : List (String × String))
    (il cl sl : String) (it : V1Item) (rts : List String) :
    (mk_reco f sd labels il cl sl it rts).severity = mk_severity it.severity := rfl

theorem mk_reco_source (f : String) (sd : List SvcEntry) (labels : List (String × String))
    (il cl sl : String) (it : V1Item) (rts : List String) :
    (mk_reco f sd labels il cl sl it rts).source = mk_source f it := rfl

theorem mk_resourceTypes_error_iff (sd : List SvcEntry) (it : V1Item) :
    (∃ e, mk_resourceTypes sd it = Except.error e) ↔ item_raises sd it := by
  unfold mk_resourceTypes item_raises
  cases hr : it.recommendationResourceType <;> cases sd <;> cases hs : it.service <;> simp

theorem mk_resourceTypes_ok (sd : List SvcEntry) (it : V1Item) (h : ¬ item_raises sd it) :
    ∃ l, mk_resourceTypes sd it = Except.ok l := by
  cases hm : mk_resourceTypes sd it with
  | ok l => exact ⟨l, rfl⟩
  | error e => exact absurd ((mk_resourceTypes_error_iff sd it).mp ⟨e, hm⟩) h

theorem convert_item_ok (f : String) (sd : List SvcEntry) (labels : List (String × String))
    (il cl sl : String) (it : V1Item) (h : ¬ item_raises sd it) :
    ∃ rts, mk_resourceTypes sd it = Except.ok rts ∧
      convert_item f sd labels il cl sl it = Except.ok (mk_reco f sd labels il cl sl it rts) := by
  obtain ⟨rts, hr⟩ := mk_resourceTypes_ok sd it h
  exact ⟨rts, hr, by unfold convert_item; rw [hr]⟩

theorem convert_item_error_iff (f : String) (sd : List SvcEntry) (labels : List (String × String))
    (il cl sl : String) (it : V1Item) :
    (∃ e, convert_item f sd labels il cl sl it = Except.error e) ↔ item_raises sd it := by
  rw [← mk_resourceTypes_error_iff sd it]
  unfold convert_item
  cases mk_resourceTypes sd it <;> simp

theorem convert_items_ok_iff (f : String) (sd : List SvcEntry) (labels : List (String × String))
    (il cl sl : String) (items : List V1Item) :
    (∃ l, convert_items f sd labels il cl sl items = Except.ok l ∧ l.length = items.length)
      ↔ ∀ it ∈ items, ¬ item_raises sd it := by
  induction items with
  | nil => simp [convert_items]
  | cons it rest ih =>
    constructor
    · rintro ⟨l, hl, hlen⟩ it' hit'
      unfold convert_items at hl
      cases hci : convert_item f sd labels il cl sl it with
      | error e => rw [hci] at hl; exact absurd hl (by simp)
      | ok r =>
        rw [hci] at hl
        cases hcs : convert_items f sd labels il cl sl rest with
        | error e => rw [hcs] at hl; exact absurd hl (by simp)
        | ok rs =>
          rw [hcs] at hl
          rcases List.mem_cons.mp hit' with rfl | hmem
          · intro hr
            obtain ⟨e, he⟩ := (convert_item_error_iff f sd labels il cl sl it').mpr hr
            rw [he] at hci; cases hci
          · have : ∃ l, convert_items f sd labels il cl sl rest = Except.ok l ∧
                l.length = rest.length := by
              refine ⟨rs, hcs, ?_⟩
              have := hl
              simp only [Except.ok.injEq] at this
              subst this
              simpa using hlen
            exact (ih.mp this) it' hmem
    · intro h
      have hhd : ¬ item_raises sd it := h it (List.mem_cons_self it rest)
      obtain ⟨rts, _, hci⟩ := convert_item_ok f sd labels il cl sl it hhd
      obtain ⟨l, hl, hlen⟩ := ih.mpr (fun it' hit' => h it' (List.mem_cons_of_mem it hit'))
      refine ⟨mk_reco f sd labels il cl sl it rts :: l, ?_, by simpa using hlen⟩
      unfold convert_items
      rw [hci, hl]

theorem convert_items_error_iff (f : String) (sd : List SvcEntry) (labels : List (String × String))
    (il cl sl : String) (items : List V1Item) :
    (∃ e, convert_items f sd labels il cl sl items = Except.error e)
      ↔ ∃ it ∈ items, item_raises sd it := by
  induction items with
  | nil => simp [convert_items]
  | cons it rest ih =>
    unfold convert_items
    cases hci : convert_item f sd labels il cl sl it with
    | error e =>
      have : item_raises sd it := (convert_item_error_iff f sd labels il cl sl it).mp ⟨e, hci⟩
      simp only [List.mem_cons]
      exact ⟨fun _ => ⟨it, Or.inl rfl, this⟩, fun _ => ⟨e, rfl⟩⟩
    | ok r =>
      have hnr : ¬ item_raises sd it := by
        intro hr
        obtain ⟨e, he⟩ := (convert_item_error_iff f sd labels il cl sl it).mpr hr
        rw [he] at hci; cases hci
      cases hcs : convert_items f sd labels il cl sl rest with
      | error e =>
        have : ∃ it' ∈ rest, item_raises sd it' := ih.mp ⟨e, hcs⟩
        obtain ⟨it', hm, hr⟩ := this
        simp only [List.mem_cons]
        exact ⟨fun _ => ⟨it', Or.inr hm, hr⟩, fun _ => ⟨e, rfl⟩⟩
      | ok rs =>
        have hno : ¬ ∃ it' ∈ rest, item_raises sd it' := by
          intro hex
          obtain ⟨e, he⟩ := ih.mpr hex
          rw [he] at hcs; cases hcs
        simp only [List.mem_cons]
        constructor
        · rintro ⟨e, he⟩; cases he
        · rintro ⟨it', hm | hm, hr⟩
          · exact absurd (hm ▸ hr) hnr
          · exact absurd ⟨it', hm, hr⟩ hno

/-- The `source`-field mapping as the corrected specification states it:
explicit `source` normalized (`aprl`/`wafsg` case-insensitively, else by
`.yaml`/`.md` containment, else **no** `source` field at all), otherwise
the `sourceType`/`sourceFile` pair (type lower-cased), otherwise the
`local` fallback naming the input file. -/
def source_spec (input_file : String) (it : V1Item) : Option Source :=
  match it.source with
  | some s =>
    if strLower s = "aprl" then some ⟨"aprl", none⟩
    else if strLower s = "wafsg" then some ⟨"wafsg", none⟩
    else if hasSubstr s ".yaml" then some ⟨"aprl", none⟩
    else if hasSubstr s ".md" then some ⟨"wafsg", none⟩
    else none
  | none =>
    match it.sourceType with
    | some st => some ⟨strLower st, it.sourceFile⟩
    | none => some ⟨"local", some input_file⟩

theorem mk_source_eq_spec (f : String) (it : V1Item) : mk_source f it = source_spec f it := by
  unfold mk_source source_spec
  cases it.source with
  | none => rfl
  | some s =>
    by_cases h1 : strLower s = "aprl"
    · simp [h1]
    · by_cases h2 : strLower s = "wafsg" <;> simp [h1, h2]

/-- A generic fold that never changes its accumulator. -/
theorem foldl_fixed {α β : Type} {g : β → α → β} (h : ∀ s d, g s d = s) :
    ∀ (l : List α) (s : β), l.foldl g s = s
  | [], _ => rfl
  | d :: l, s => by rw [List.foldl_cons, h, foldl_fixed h l]

/-! ## Claim theorems: transformer -/

/-- C1, counterexample: an item lacking both `service` and
`recommendationResourceType`, with a non-empty service dictionary
supplied, aborts the whole batch — `generate_v2` returns no record for
it (nor for anything else), contradicting the claimed per-field
independence. -/
theorem generate_v2_missing_service_aborts_batch :
    (generate_v2 (some ⟨some [emptyItem]⟩) "in.json" dict1 [] none none none).1 = none := by
  decide

/-- C1 (amended): field-presence checks are independent per field for
every item outside the one raising case (`recommendationResourceType`
absent, non-empty dictionary, `service` absent): a batch of such items
always yields one record per item, each record merely mirroring the
presence of the item's fields. -/
theorem generate_v2_field_independence (input_file : String) (sd : List SvcEntry)
    (labels : List (String × String)) (il cl sl : Option String) (items : List V1Item)
    (h : ∀ it ∈ items, ¬ item_raises sd it) :
    (generate_v2 (some ⟨some items⟩) input_file sd labels il cl sl).1.map List.length
        = some items.length ∧
    ∀ it ∈ items, ∃ r, convert_item input_file sd labels (default_label il "id")
        (default_label cl "area") (default_label sl "subarea") it = Except.ok r ∧
      r.guid = it.guid ∧ r.title = it.text ∧ r.description = it.description ∧
      r.waf = it.waf ∧ r.service = it.service.map (fun s => get_standard_service_name s sd) := by
  obtain ⟨l, hl, hlen⟩ := (convert_items_ok_iff input_file sd labels (default_label il "id")
    (default_label cl "area") (default_label sl "subarea") items).mpr h
  constructor
  · simp only [generate_v2]
    rw [hl]
    simp [hlen]
  · intro it hit
    obtain ⟨rts, _, hci⟩ := convert_item_ok input_file sd labels (default_label il "id")
      (default_label cl "area") (default_label sl "subarea") it (h it hit)
    exact ⟨_, hci, rfl, rfl, rfl, rfl, rfl⟩

/-- C1 witness: a concrete non-raising batch is fully converted. -/
theorem generate_v2_field_independence_witness :
    (generate_v2 (some ⟨some [itemVM]⟩) "in.json" dict1 [] none none none).1.map List.length
      = some 1 :=
  (generate_v2_field_independence "in.json" dict1 [] none none none [itemVM] (by decide)).1

/-- C3, counterexample: an item whose explicit `source` is not
`aprl`/`wafsg` and contains neither `.yaml` nor `.md` is emitted with
**no** `source` mapping, contradicting "every emitted V2 record has a
`source` mapping". -/
theorem generate_v2_unrecognized_source_counterexample :
    (generate_v2 (some ⟨some [itemOddSource]⟩) "in.json" [] [] none none none).1.map
        (List.map V2Reco.source) = some [none] := by
  decide

/-- C3 (amended): for every non-raising item the emitted record's
`source` equals the priority mapping of the corrected specification
(`source_spec`), which omits the field when an explicit `source` value is
unrecognized. -/
theorem convert_item_source_spec (f : String) (sd : List SvcEntry)
    (labels : List (String × String)) (il cl sl : String) (it : V1Item)
    (h : ¬ item_raises sd it) :
    (convert_item f sd labels il cl sl it).map V2Reco.source = Except.ok (source_spec f it) := by
  obtain ⟨rts, _, hci⟩ := convert_item_ok f sd labels il cl sl it h
  rw [hci]
  simp [Except.map, mk_reco_source, mk_source_eq_spec]

/-- C3 witness: `source: "myfile.yaml"` is normalized to type `aprl`. -/
theorem convert_item_source_spec_witness :
    (convert_item "in.json" [] [] "id" "area" "subarea" itemYamlSource).map V2Reco.source
      = Except.ok (some ⟨"aprl", none⟩) := by
  have h := convert_item_source_spec "in.json" [] [] "id" "area" "subarea" itemYamlSource
    (by decide)
  rw [h]
  rfl

/-- C7: `generate_v2` returns an absent record list exactly when the
document could not be read, has no `items` key, or some item raises
mid-batch; a present result always has one record per item (never a
partial list); every produced error message names the input file, and a
failure always produces a message. -/
theorem generate_v2_failure_contract (input_doc : Option Checklist) (input_file : String)
    (sd : List SvcEntry) (labels : List (String × String)) (il cl sl : Option String) :
    ((generate_v2 input_doc input_file sd labels il cl sl).1 = none ↔
        input_doc = none ∨ ∃ doc, input_doc = some doc ∧
          (doc.items = none ∨ ∃ items, doc.items = some items ∧
            ∃ it ∈ items, item_raises sd it)) ∧
    (∀ l, (generate_v2 input_doc input_file sd labels il cl sl).1 = some l →
        ∃ doc items, input_doc = some doc ∧ doc.items = some items ∧
          l.length = items.length) ∧
    (∀ m ∈ (generate_v2 input_doc input_file sd labels il cl sl).2, m.input = input_file) ∧
    ((generate_v2 input_doc input_file sd labels il cl sl).1 = none →
        (generate_v2 input_doc input_file sd labels il cl sl).2 ≠ []) := by
  cases input_doc with
  | none => simp [generate_v2, GenMsg.input]
  | some doc =>
    cases hdoc : doc.items with
    | none =>
      refine ⟨?_, ?_, ?_, ?_⟩
      · simp only [generate_v2, hdoc]
        simp [hdoc]
      · intro l hl
        simp only [generate_v2, hdoc] at hl
        cases hl
      · intro m hm
        simp only [generate_v2, hdoc, List.mem_singleton] at hm
        simp [hm, GenMsg.input]
      · intro _
        simp [generate_v2, hdoc]
    | some items =>
      cases hconv : convert_items input_file sd labels (default_label il "id")
          (default_label cl "area") (default_label sl "subarea") items with
      | ok l =>
        have hnr : ∀ it ∈ items, ¬ item_raises sd it := by
          intro it hit hr
          obtain ⟨e, he⟩ := (convert_items_error_iff input_file sd labels
            (default_label il "id") (default_label cl "area") (default_label sl "subarea")
            items).mpr ⟨it, hit, hr⟩
          rw [he] at hconv
          cases hconv
        obtain ⟨l', hl', hlen⟩ := (convert_items_ok_iff input_file sd labels
          (default_label il "id") (default_label cl "area") (default_label sl "subarea")
          items).mpr hnr
        rw [hconv] at hl'
        injection hl' with hll
        refine ⟨?_, ?_, ?_, ?_⟩
        · simp only [generate_v2, hdoc, hconv]
          constructor
          · intro hc
            exact Option.noConfusion hc
          · rintro (hc | ⟨doc', hdoc', hc | ⟨items', hitems', it, hit, hr⟩⟩)
            · exact Option.noConfusion hc
            · injection hdoc' with hdd
              subst hdd
              rw [hdoc] at hc
              exact Option.noConfusion hc
            · injection hdoc' with hdd
              subst hdd
              rw [hdoc] at hitems'
              injection hitems' with hii
              exact absurd hr (hnr it (by rw [hii]; exact hit))
        · intro l0 hl0
          simp only [generate_v2, hdoc, hconv] at hl0
          injection hl0 with hl0
          exact ⟨doc, items, rfl, hdoc, by rw [← hl0, hll]; exact hlen⟩
        · intro m hm
          simp only [generate_v2, hdoc, hconv] at hm
          cases hm
        · intro hnone
          simp only [generate_v2, hdoc, hconv] at hnone
          cases hnone
      | error e =>
        have hex : ∃ it ∈ items, item_raises sd it :=
          (convert_items_error_iff input_file sd labels (default_label il "id")
            (default_label cl "area") (default_label sl "subarea") items).mp ⟨e, hconv⟩
        refine ⟨?_, ?_, ?_, ?_⟩
        · simp only [generate_v2, hdoc, hconv]
          obtain ⟨it, hit, hr⟩ := hex
          simp only [true_iff]
          exact Or.inr ⟨doc, rfl, Or.inr ⟨items, hdoc, it, hit, hr⟩⟩
        · intro l hl
          simp only [generate_v2, hdoc, hconv] at hl
          cases hl
        · intro m hm
          simp only [generate_v2, hdoc, hconv, List.mem_singleton] at hm
          simp [hm, GenMsg.input]
        · intro _
          simp [generate_v2, hdoc, hconv]

/-- C7 witness: an unreadable input yields an absent result. -/
theorem generate_v2_failure_contract_witness :
    (generate_v2 none "bad.json" [] [] none none none).1 = none :=
  (generate_v2_failure_contract none "bad.json" [] [] none none none).1.mpr (Or.inl rfl)

/-- C8: the emitted `severity` is 0/1/2 exactly for strings whose
lower-casing is high/medium/low, and absent for an absent or
unrecognized `severity`. -/
theorem convert_item_severity_mapping (f : String) (sd : List SvcEntry)
    (labels : List (String × String)) (il cl sl : String) (it : V1Item)
    (h : ¬ item_raises sd it) :
    (it.severity = none →
        (convert_item f sd labels il cl sl it).map V2Reco.severity = Except.ok none) ∧
    ∀ s, it.severity = some s →
      ((strLower s = "high" →
          (convert_item f sd labels il cl sl it).map V2Reco.severity = Except.ok (some 0)) ∧
       (strLower s = "medium" →
          (convert_item f sd labels il cl sl it).map V2Reco.severity = Except.ok (some 1)) ∧
       (strLower s = "low" →
          (convert_item f sd labels il cl sl it).map V2Reco.severity = Except.ok (some 2)) ∧
       (strLower s ≠ "high" → strLower s ≠ "medium" → strLower s ≠ "low" →
          (convert_item f sd labels il cl sl it).map V2Reco.severity = Except.ok none)) := by
  obtain ⟨rts, _, hci⟩ := convert_item_ok f sd labels il cl sl it h
  have hs : (convert_item f sd labels il cl sl it).map V2Reco.severity
      = Except.ok (mk_severity it.severity) := by
    rw [hci]; rfl
  rw [hs]
  constructor
  · intro hnone
    rw [hnone]
    rfl
  · intro s hsev
    rw [hsev]
    refine ⟨?_, ?_, ?_, ?_⟩
    · intro h1; simp [mk_severity, h1]
    · intro h1; simp [mk_severity, h1]
    · intro h1; simp [mk_severity, h1]
    · intro h1 h2 h3; simp [mk_severity, h1, h2, h3]

/-- C8 witness: `severity: "HIGH"` maps to the integer 0. -/
theorem convert_item_severity_mapping_witness :
    (convert_item "f" [] [] "id" "area" "subarea" itemHigh).map V2Reco.severity
      = Except.ok (some 0) :=
  ((convert_item_severity_mapping "f" [] [] "id" "area" "subarea" itemHigh (by decide)).2
    "HIGH" rfl).1 (by decide)

/-- C9: `get_standard_service_name` returns the `service` of the first
dictionary entry whose `names` contains the name (exact, case-sensitive
match) and the name unchanged otherwise; the spec's worked example maps
`service: "VM"` to `"Virtual Machines"` with resource types
`["Microsoft.Compute/virtualMachines"]`. -/
theorem get_standard_service_name_spec :
    (∀ (name : String) (sd : List SvcEntry),
        get_standard_service_name name sd
          = ((sd.find? (fun e => decide (name ∈ e.names))).map SvcEntry.service).getD name) ∧
    get_standard_service_name "vm" dict1 = "vm" ∧
    (generate_v2 (some ⟨some [itemVM]⟩) "in.json" dict1 [] none none none).1.map
        (List.map (fun r => (r.service, r.resourceTypes)))
      = some [(some "Virtual Machines", ["Microsoft.Compute/virtualMachines"])] := by
  refine ⟨?_, by decide, by decide⟩
  intro name sd
  induction sd with
  | nil => rfl
  | cons e rest ih =>
    by_cases h : name ∈ e.names
    · simp [get_standard_service_name, List.find?_cons_of_pos, h]
    · rw [List.find?_cons_of_neg _ (by simpa using h)]
      simp [get_standard_service_name, h, ih]

/-- C10: `remove_empty_dirs` walks the directory tree but performs no
filesystem mutation whatsoever — the state after the call is the state
before it, for every fuel bound, state and path. -/
theorem remove_empty_dirs_no_mutation (fuel : Nat) (fs : FS) (path : FPath) :
    remove_empty_dirs fuel fs path = fs := by
  induction fuel generalizing fs path with
  | zero => rfl
  | succ n ih =>
    show (subdirsOf fs path).foldl (fun s d => remove_empty_dirs n s d) fs = fs
    exact foldl_fixed (fun s d => ih s d) (subdirsOf fs path) fs

/-! ## Claim theorems: store -/

/-- C2 (code bug evaluation): a record without a guid makes `store_v2`
raise `KeyError: 'text'` inside the error `print` (v2 records carry
`title`, not `text`), aborting the whole batch: no message is reported
and the following record is never stored. -/
theorem store_v2_missing_guid_keyerror :
    store_v2 ["out"] [recNoGuid, rec1] "yaml" false emptyFS
      = ({ dirs := [[], ["out"]], files := [] }, [], some (StoreError.keyError "text")) := by
  decide

/-- C6, counterexample: with an unsupported format, a call with an empty
record list terminates normally (no exit at all), and a call with a
guid-bearing record creates the record's destination directories before
exiting — so the operation neither terminates immediately nor before
per-record side effects. -/
theorem store_v2_unsupported_format_counterexample :
    (store_v2 ["out"] [] "xml" false emptyFS).2.2 = none ∧
    (store_v2 ["out"] [rec1] "xml" false emptyFS).2.2 = some (StoreError.sysExit 1) ∧
    (store_v2 ["out"] [rec1] "xml" false emptyFS).1.dirs
      = [[], ["out"], ["out", "VirtualMachines"], ["out", "VirtualMachines", "Reliability"]] := by
  refine ⟨by decide, by decide, by decide⟩

/-- C6 (amended): with an unsupported output format, `store_v2`
terminates fatally (`sys.exit(1)`) at the first guid-bearing record —
after that record's destination directories were created, but with no
file ever written — while a call that processes no guid-bearing record
(e.g. an empty list) completes without terminating. -/
theorem store_v2_unsupported_format_amended (root : FPath) (fs : FS) (fmt : String)
    (ow : Bool) (r : V2Reco) (rest : List V2Reco) (g : String)
    (hfmt : fmt ≠ "yaml" ∧ fmt ≠ "yml" ∧ fmt ≠ "json") (hg : r.guid = some g) :
    store_record root fmt ow fs r
      = (if recoDir root r ∈ fs.dirs then fs else addDir fs (recoDir root r),
         [Report.unsupported fmt], some (StoreError.sysExit 1)) ∧
    (store_record root fmt ow fs r).1.files = fs.files ∧
    (store_v2 root [] fmt ow fs).2.2 = none ∧
    (store_v2 root (r :: rest) fmt ow fs).2.2 = some (StoreError.sysExit 1) := by
  have key : ∀ fs' : FS, store_record root fmt ow fs' r
      = (if recoDir root r ∈ fs'.dirs then fs' else addDir fs' (recoDir root r),
         [Report.unsupported fmt], some (StoreError.sysExit 1)) := by
    intro fs'
    simp only [store_record, hg]
    rw [if_neg (by simp [hfmt.1, hfmt.2.1]), if_neg hfmt.2.2]
  refine ⟨key fs, ?_, ?_, ?_⟩
  · rw [key fs]
    by_cases hd : recoDir root r ∈ fs.dirs <;> simp [hd, addDir]
  · simp [store_v2, store_loop]
  · simp only [store_v2, store_loop]
    rw [key]

/-- C6 witness: a concrete call with format `"xml"` exits fatally at its
guid-bearing record. -/
theorem store_v2_unsupported_format_amended_witness :
    (store_v2 ["out"] (rec1 :: []) "xml" false emptyFS).2.2 = some (StoreError.sysExit 1) :=
  (store_v2_unsupported_format_amended ["out"] emptyFS "xml" false rec1 [] "abc-123"
    ⟨by decide, by decide, by decide⟩ rfl).2.2.2

theorem rglob_dirstep (fs : FS) (c : Prop) [Decidable c] (p : FPath) (root : FPath) (n : String) :
    rglob (if c then fs else addDir fs p) root n = rglob fs root n := by
  split <;> rfl

/-- C5: for every guid-bearing record, the store step globs the whole
tree under `output_root` for `<guid>.yaml`; with no match it writes at
the computed destination; with a match it either reports a conflict
naming the matched path and leaves the files untouched
(`overwrite = false`), or deletes the matched file and writes the record
at the freshly computed destination (`overwrite = true`). -/
theorem store_record_glob_contract (root : FPath) (fs : FS) (ow : Bool) (r : V2Reco)
    (g : String) (hg : r.guid = some g) :
    (rglob fs root (g ++ ".yaml") = [] →
       store_record root "yaml" ow fs r
         = (writeFile (if recoDir root r ∈ fs.dirs then fs else addDir fs (recoDir root r))
             (recoDir root r ++ [g ++ ".yaml"]) r, [], none)) ∧
    (∀ p ps, rglob fs root (g ++ ".yaml") = p :: ps →
       (store_record root "yaml" false fs r
          = (if recoDir root r ∈ fs.dirs then fs else addDir fs (recoDir root r),
             [Report.conflict p], none)) ∧
       ((store_record root "yaml" false fs r).1.files = fs.files) ∧
       (store_record root "yaml" true fs r
          = (writeFile (unlink (if recoDir root r ∈ fs.dirs then fs
                else addDir fs (recoDir root r)) p)
              (recoDir root r ++ [g ++ ".yaml"]) r, [], none))) := by
  have hgl : rglob (if recoDir root r ∈ fs.dirs then fs else addDir fs (recoDir root r))
      root (g ++ ".yaml") = rglob fs root (g ++ ".yaml") :=
    rglob_dirstep fs _ _ root (g ++ ".yaml")
  constructor
  · intro hnil
    simp only [store_record, hg, storeAs]
    rw [hgl, hnil]
    simp
  · intro p ps hcons
    refine ⟨?_, ?_, ?_⟩
    · simp only [store_record, hg, storeAs]
      rw [hgl, hcons]
      simp
    · simp only [store_record, hg, storeAs]
      rw [hgl, hcons]
      by_cases hd : recoDir root r ∈ fs.dirs <;> simp [hd, addDir]
    · simp only [store_record, hg, storeAs]
      rw [hgl, hcons]
      simp

/-- C5 witness: on an empty tree the record is written at its computed
destination. -/
theorem store_record_glob_contract_witness :
    store_record ["out"] "yaml" false emptyFS rec1
      = (writeFile (addDir emptyFS (recoDir ["out"] rec1))
          (recoDir ["out"] rec1 ++ ["abc-123" ++ ".yaml"]) rec1, [], none) := by
  have h := (store_record_glob_contract ["out"] emptyFS false rec1 "abc-123" rfl).1 rfl
  rw [h, if_neg (show recoDir ["out"] rec1 ∈ emptyFS.dirs → False by decide)]

/-! ## Store lemmas for the idempotence claim -/

/-- The file entry a stored record occupies. -/
def recoEntry (root : FPath) (r : V2Reco) : FPath × V2Reco := (recoPath root r, r)

theorem getLast?_recoPath (root : FPath) (r : V2Reco) :
    (recoPath root r).getLast? = some (fnameOf r) :=
  List.getLast?_concat _

theorem root_prefix_recoPath (root : FPath) (r : V2Reco) : root <+: recoPath root r :=
  ⟨recoTail r ++ [fnameOf r], by simp [recoPath, recoDir]⟩

theorem length_recoTail_pos (r : V2Reco) : 0 < (recoTail r).length := by
  unfold recoTail
  cases r.service <;> cases r.waf <;> simp

theorem recoPath_ne_root (root : FPath) (r : V2Reco) : recoPath root r ≠ root := by
  intro h
  have hl := congrArg List.length h
  simp [recoPath, recoDir, List.length_append] at hl

theorem matchesGlob_recoPath (root : FPath) (r : V2Reco) :
    matchesGlob root (fnameOf r) (recoPath root r) :=
  ⟨root_prefix_recoPath root r, recoPath_ne_root root r, getLast?_recoPath root r⟩

theorem fnameOf_eq_of_matchesGlob (root : FPath) (r : V2Reco) (n : String)
    (h : matchesGlob root n (recoPath root r)) : fnameOf r = n := by
  have h1 := h.2.2
  rw [getLast?_recoPath] at h1
  injection h1

theorem rglobL_cons (e : FPath × V2Reco) (l : List (FPath × V2Reco)) (root : FPath)
    (n : String) :
    rglobL (e :: l) root n
      = if matchesGlob root n e.1 then e.1 :: rglobL l root n else rglobL l root n := by
  simp only [rglobL, List.map_cons, List.filter_cons]
  by_cases h : matchesGlob root n e.1 <;> simp [h]

theorem rglobL_append (a b : List (FPath × V2Reco)) (root : FPath) (n : String) :
    rglobL (a ++ b) root n = rglobL a root n ++ rglobL b root n := by
  simp [rglobL, List.filter_append]

theorem recoEntry_fst (root : FPath) (r : V2Reco) : (recoEntry root r).1 = recoPath root r :=
  rfl

theorem rglobL_eq_nil_iff (l : List (FPath × V2Reco)) (root : FPath) (n : String) :
    rglobL l root n = [] ↔ ∀ e ∈ l, ¬ matchesGlob root n e.1 := by
  induction l with
  | nil => simp [rglobL]
  | cons e t ih =>
    rw [rglobL_cons]
    by_cases h : matchesGlob root n e.1
    · rw [if_pos h]
      simp [h]
    · rw [if_neg h]
      simp [h, ih]

theorem rglobL_entries_no_match (root : FPath) (recs : List V2Reco) (n : String)
    (h : ∀ r ∈ recs, fnameOf r ≠ n) :
    rglobL (recs.map (recoEntry root)) root n = [] := by
  rw [rglobL_eq_nil_iff]
  intro e he hm
  obtain ⟨r, hr, rfl⟩ := List.mem_map.mp he
  exact h r hr (fnameOf_eq_of_matchesGlob root r n hm)

theorem rglobL_entries_self (root : FPath) (recs : List V2Reco) (r : V2Reco)
    (hnd : (recs.map fnameOf).Nodup) (hr : r ∈ recs) :
    rglobL (recs.map (recoEntry root)) root (fnameOf r) = [recoPath root r] := by
  induction recs with
  | nil => cases hr
  | cons a t ih =>
    simp only [List.map_cons, List.nodup_cons] at hnd
    rw [List.map_cons, rglobL_cons]
    rcases List.mem_cons.mp hr with rfl | hmem
    · rw [recoEntry_fst, if_pos (matchesGlob_recoPath root r)]
      rw [rglobL_entries_no_match root t (fnameOf r)
        (fun r' hr' hEq => hnd.1 (hEq ▸ List.mem_map_of_mem fnameOf hr'))]
    · have hfr : fnameOf r ∈ t.map fnameOf := List.mem_map_of_mem fnameOf hmem
      have hne : ¬ matchesGlob root (fnameOf r) (recoPath root a) := by
        intro hm
        exact hnd.1 ((fnameOf_eq_of_matchesGlob root a (fnameOf r) hm) ▸ hfr)
      rw [recoEntry_fst, if_neg hne]
      exact ih hnd.2 hmem

theorem nodup_fnames (recs : List V2Reco) (hg : ∀ r ∈ recs, (V2Reco.guid r).isSome)
    (hnd : (recs.map V2Reco.guid).Nodup) : (recs.map fnameOf).Nodup := by
  induction recs with
  | nil => simp
  | cons a t ih =>
    simp only [List.map_cons, List.nodup_cons] at hnd ⊢
    refine ⟨?_, ih (fun r h => hg r (List.mem_cons_of_mem a h)) hnd.2⟩
    intro hmem
    obtain ⟨r, hr, hEq⟩ := List.mem_map.mp hmem
    apply hnd.1
    rw [List.mem_map]
    refine ⟨r, hr, ?_⟩
    obtain ⟨ga, hga⟩ := Option.isSome_iff_exists.mp (hg a (List.mem_cons_self a t))
    obtain ⟨gr, hgr⟩ := Option.isSome_iff_exists.mp (hg r (List.mem_cons_of_mem a hr))
    have h1 : gr ++ ".yaml" = ga ++ ".yaml" := by
      simpa [fnameOf, hgr, hga] using hEq
    have h2 : gr = ga := by
      have hd := congrArg String.data h1
      rw [String.data_append, String.data_append] at hd
      exact String.ext (List.append_cancel_right hd)
    rw [hgr, hga, h2]

theorem writeFile_files_fresh (fs : FS) (p : FPath) (d : V2Reco)
    (h : ∀ e ∈ fs.files, e.1 ≠ p) :
    writeFile fs p d = { fs with files := fs.files ++ [(p, d)] } := by
  simp only [writeFile]
  congr 1
  rw [List.filter_eq_self.mpr]
  intro a ha
  simpa using h a ha

theorem unlink_files_fresh (fs : FS) (p : FPath)
    (h : ∀ e ∈ fs.files, e.1 ≠ p) : unlink fs p = fs := by
  simp only [unlink]
  have : fs.files.filter (fun e => decide (e.1 ≠ p)) = fs.files := by
    rw [List.filter_eq_self.mpr]
    intro a ha
    simpa using h a ha
  rw [this]

theorem dirstep_eq (fs : FS) (p : FPath) :
    (if p ∈ fs.dirs then fs else addDir fs p) = FS.mk (addDirL fs.dirs p) fs.files := by
  by_cases h : p ∈ fs.dirs
  · rw [if_pos h]
    show fs = FS.mk (addDirL fs.dirs p) fs.files
    rw [addDirL, if_pos h]
  · rw [if_neg h]
    rfl

theorem addDirL_mem_self (ds : List FPath) (p : FPath) : p ∈ addDirL ds p := by
  unfold addDirL
  by_cases h : p ∈ ds
  · simp [h]
  · rw [if_neg h]
    refine List.mem_append.mpr (Or.inr ?_)
    rw [List.mem_filter]
    exact ⟨(List.mem_inits _ _).mpr (List.prefix_refl p), by simpa using h⟩

theorem addDirL_mono (ds : List FPath) (p q : FPath) (h : q ∈ ds) : q ∈ addDirL ds p := by
  unfold addDirL
  split <;> simp [h]

theorem addDirL_subset (ds : List FPath) (p q : FPath) (h : q ∈ addDirL ds p) :
    q ∈ ds ∨ q <+: p := by
  unfold addDirL at h
  split at h
  · exact Or.inl h
  · rcases List.mem_append.mp h with h' | h'
    · exact Or.inl h'
    · exact Or.inr ((List.mem_inits _ _).mp (List.mem_filter.mp h').1)

theorem foldl_addDirL_mono (root : FPath) (recs : List V2Reco) :
    ∀ (ds : List FPath) (q : FPath), q ∈ ds →
      q ∈ recs.foldl (fun ds r => addDirL ds (recoDir root r)) ds := by
  induction recs with
  | nil => intro ds q h; simpa using h
  | cons r t ih =>
    intro ds q h
    exact ih _ q (addDirL_mono _ _ q h)

theorem foldl_addDirL_mem (root : FPath) (recs : List V2Reco) (r : V2Reco) (hr : r ∈ recs) :
    ∀ ds : List FPath, recoDir root r ∈ recs.foldl (fun ds r => addDirL ds (recoDir root r)) ds := by
  induction recs with
  | nil => cases hr
  | cons a t ih =>
    intro ds
    rcases List.mem_cons.mp hr with rfl | h
    · exact foldl_addDirL_mono root t _ _ (addDirL_mem_self ds _)
    · exact ih h _

theorem foldl_addDirL_subset (root : FPath) (recs : List V2Reco) :
    ∀ (ds : List FPath) (q : FPath),
      q ∈ recs.foldl (fun ds r => addDirL ds (recoDir root r)) ds →
      q ∈ ds ∨ ∃ r ∈ recs, q <+: recoDir root r := by
  induction recs with
  | nil =>
    intro ds q h
    exact Or.inl (by simpa using h)
  | cons a t ih =>
    intro ds q h
    rcases ih _ q h with h' | ⟨r, hm, hp⟩
    · rcases addDirL_subset _ _ _ h' with h'' | h''
      · exact Or.inl h''
      · exact Or.inr ⟨a, List.mem_cons_self a t, h''⟩
    · exact Or.inr ⟨r, List.mem_cons_of_mem a hm, hp⟩


theorem store_loop_cons_ok (root : FPath) (fmt : String) (ow : Bool) (fs : FS) (r : V2Reco)
    (fs' : FS) (reps : List Report) (rest : List V2Reco)
    (h : store_record root fmt ow fs r = (fs', reps, none)) :
    store_loop root fmt ow fs (r :: rest)
      = ((store_loop root fmt ow fs' rest).1,
         reps ++ (store_loop root fmt ow fs' rest).2.1,
         (store_loop root fmt ow fs' rest).2.2) := by
  simp only [store_loop, h]

theorem store_loop_fresh (root : FPath) (ow : Bool) :
    ∀ (recs : List V2Reco) (fs : FS),
      (∀ r ∈ recs, (V2Reco.guid r).isSome) →
      ((recs.map fnameOf).Nodup) →
      (∀ r ∈ recs, rglob fs root (fnameOf r) = []) →
      store_loop root "yaml" ow fs recs
        = (FS.mk (recs.foldl (fun ds r => addDirL ds (recoDir root r)) fs.dirs)
            (fs.files ++ recs.map (recoEntry root)), [], none) := by
  intro recs
  induction recs with
  | nil =>
    intro fs _ _ _
    simp [store_loop]
  | cons r t ih =>
    intro fs hg hnd hfresh
    obtain ⟨g, hgr⟩ := Option.isSome_iff_exists.mp (hg r (List.mem_cons_self r t))
    have hfname : fnameOf r = g ++ ".yaml" := by simp [fnameOf, hgr]
    simp only [List.map_cons, List.nodup_cons] at hnd
    have hfr0 : rglob fs root (g ++ ".yaml") = [] := by
      rw [← hfname]
      exact hfresh r (List.mem_cons_self r t)
    have hnofile : ∀ e ∈ fs.files, e.1 ≠ recoPath root r := by
      intro e he heq
      have hmm := (rglobL_eq_nil_iff fs.files root (fnameOf r)).mp
        (hfresh r (List.mem_cons_self r t)) e he
      exact hmm (by rw [heq]; exact matchesGlob_recoPath root r)
    have hstep : store_record root "yaml" ow fs r
        = (FS.mk (addDirL fs.dirs (recoDir root r)) (fs.files ++ [recoEntry root r]),
           [], none) := by
      simp only [store_record, hgr, storeAs]
      rw [rglob_dirstep, hfr0, dirstep_eq]
      have hw := writeFile_files_fresh (FS.mk (addDirL fs.dirs (recoDir root r)) fs.files)
        (recoPath root r) r hnofile
      simp only [recoPath, hfname] at hw
      simp [hw, recoEntry, recoPath, hfname]
    have hfresh' : ∀ r' ∈ t,
        rglob (FS.mk (addDirL fs.dirs (recoDir root r)) (fs.files ++ [recoEntry root r]))
          root (fnameOf r') = [] := by
      intro r' hr'
      show rglobL (fs.files ++ [recoEntry root r]) root (fnameOf r') = []
      rw [rglobL_append]
      have h1 : rglobL fs.files root (fnameOf r') = []
        := hfresh r' (List.mem_cons_of_mem r hr')
      have h2 : rglobL [recoEntry root r] root (fnameOf r') = [] := by
        have hsing : [recoEntry root r] = List.map (recoEntry root) [r] := rfl
        rw [hsing]
        refine rglobL_entries_no_match root [r] (fnameOf r') ?_
        intro r'' hr'' hEq
        rw [List.mem_singleton] at hr''
        subst hr''
        exact hnd.1 (hEq ▸ List.mem_map_of_mem fnameOf hr')
      rw [h1, h2]
      rfl
    have hrec := ih (FS.mk (addDirL fs.dirs (recoDir root r))
        (fs.files ++ [recoEntry root r]))
      (fun r' hr' => hg r' (List.mem_cons_of_mem r hr')) hnd.2 hfresh'
    rw [store_loop_cons_ok root "yaml" ow fs r _ _ t hstep, hrec]
    simp [List.append_assoc]

theorem store_loop_conflict (root : FPath) :
    ∀ (recs : List V2Reco) (fs : FS),
      (∀ r ∈ recs, (V2Reco.guid r).isSome) →
      (∀ r ∈ recs, rglob fs root (fnameOf r) = [recoPath root r]) →
      (∀ r ∈ recs, recoDir root r ∈ fs.dirs) →
      store_loop root "yaml" false fs recs
        = (fs, recs.map (fun r => Report.conflict (recoPath root r)), none) := by
  intro recs
  induction recs with
  | nil =>
    intro fs _ _ _
    simp [store_loop]
  | cons r t ih =>
    intro fs hg hmatch hdirs
    obtain ⟨g, hgr⟩ := Option.isSome_iff_exists.mp (hg r (List.mem_cons_self r t))
    have hfname : fnameOf r = g ++ ".yaml" := by simp [fnameOf, hgr]
    have hm : rglob fs root (g ++ ".yaml") = [recoPath root r] := by
      rw [← hfname]
      exact hmatch r (List.mem_cons_self r t)
    have hstep : store_record root "yaml" false fs r
        = (fs, [Report.conflict (recoPath root r)], none) := by
      simp only [store_record, hgr, storeAs]
      rw [if_pos (hdirs r (List.mem_cons_self r t)), hm]
      simp
    have hrec := ih fs (fun r' hr' => hg r' (List.mem_cons_of_mem r hr'))
      (fun r' hr' => hmatch r' (List.mem_cons_of_mem r hr'))
      (fun r' hr' => hdirs r' (List.mem_cons_of_mem r hr'))
    rw [store_loop_cons_ok root "yaml" false fs r _ _ t hstep, hrec]
    simp

theorem store_loop_overwrite (root : FPath) :
    ∀ (recs : List V2Reco) (fs : FS) (pre : List (FPath × V2Reco)),
      (∀ r ∈ recs, (V2Reco.guid r).isSome) →
      ((recs.map fnameOf).Nodup) →
      fs.files = recs.map (recoEntry root) ++ pre →
      (∀ r ∈ recs, ∀ e ∈ pre, ¬ matchesGlob root (fnameOf r) e.1) →
      (∀ r ∈ recs, recoDir root r ∈ fs.dirs) →
      store_loop root "yaml" true fs recs
        = (FS.mk fs.dirs (pre ++ recs.map (recoEntry root)), [], none) := by
  intro recs
  induction recs with
  | nil =>
    intro fs pre _ _ hfiles _ _
    simp only [List.map_nil, List.nil_append] at hfiles
    simp [store_loop, List.append_nil, ← hfiles]
  | cons r t ih =>
    intro fs pre hg hnd hfiles hpre hdirs
    obtain ⟨g, hgr⟩ := Option.isSome_iff_exists.mp (hg r (List.mem_cons_self r t))
    have hfname : fnameOf r = g ++ ".yaml" := by simp [fnameOf, hgr]
    simp only [List.map_cons, List.nodup_cons] at hnd
    have hglob : rglob fs root (g ++ ".yaml")
        = recoPath root r :: rglobL (t.map (recoEntry root) ++ pre) root (fnameOf r) := by
      rw [← hfname]
      show rglobL fs.files root (fnameOf r) = _
      rw [hfiles, List.map_cons, List.cons_append, rglobL_cons, recoEntry_fst,
        if_pos (matchesGlob_recoPath root r)]
    have hnp : ∀ e ∈ t.map (recoEntry root) ++ pre, e.1 ≠ recoPath root r := by
      intro e he heq
      rcases List.mem_append.mp he with he' | he'
      · obtain ⟨r', hr', rfl⟩ := List.mem_map.mp he'
        rw [recoEntry_fst] at heq
        have hfe : fnameOf r' = fnameOf r := by
          have h1 := congrArg List.getLast? heq
          rw [getLast?_recoPath, getLast?_recoPath] at h1
          injection h1
        exact hnd.1 (hfe ▸ List.mem_map_of_mem fnameOf hr')
      · exact hpre r (List.mem_cons_self r t) e he'
          (by rw [heq]; exact matchesGlob_recoPath root r)
    have hfilter : fs.files.filter (fun e => decide (e.1 ≠ recoPath root r))
        = t.map (recoEntry root) ++ pre := by
      rw [hfiles, List.map_cons, List.cons_append, List.filter_cons]
      have hd : (decide ((recoEntry root r).1 ≠ recoPath root r)) = false := by
        simp [recoEntry_fst]
      rw [hd]
      simp only [Bool.false_eq_true, if_false]
      exact List.filter_eq_self.mpr (fun e he => by simpa using hnp e he)
    have hunlink : unlink fs (recoPath root r)
        = FS.mk fs.dirs (t.map (recoEntry root) ++ pre) := by
      simp only [unlink, hfilter]
    have hwrite : writeFile (FS.mk fs.dirs (t.map (recoEntry root) ++ pre))
          (recoPath root r) r
        = FS.mk fs.dirs (t.map (recoEntry root) ++ (pre ++ [recoEntry root r])) := by
      rw [writeFile_files_fresh _ _ _ hnp]
      simp [recoEntry, List.append_assoc]
    have hstep : store_record root "yaml" true fs r
        = (FS.mk fs.dirs (t.map (recoEntry root) ++ (pre ++ [recoEntry root r])),
           [], none) := by
      simp only [store_record, hgr, storeAs]
      rw [if_pos (hdirs r (List.mem_cons_self r t)), hglob]
      have hout : recoDir root r ++ [g ++ ".yaml"] = recoPath root r := by
        rw [recoPath, hfname]
      simp only [if_pos rfl, hout]
      rw [hunlink, hwrite]
      simp
    have hpre' : ∀ r' ∈ t, ∀ e ∈ pre ++ [recoEntry root r],
        ¬ matchesGlob root (fnameOf r') e.1 := by
      intro r' hr' e he hm
      rcases List.mem_append.mp he with he' | he'
      · exact hpre r' (List.mem_cons_of_mem r hr') e he' hm
      · rw [List.mem_singleton] at he'
        subst he'
        rw [recoEntry_fst] at hm
        exact hnd.1 ((fnameOf_eq_of_matchesGlob root r (fnameOf r') hm)
          ▸ List.mem_map_of_mem fnameOf hr')
    have hrec := ih (FS.mk fs.dirs (t.map (recoEntry root) ++ (pre ++ [recoEntry root r])))
      (pre ++ [recoEntry root r])
      (fun r' hr' => hg r' (List.mem_cons_of_mem r hr')) hnd.2 rfl hpre'
      (fun r' hr' => hdirs r' (List.mem_cons_of_mem r hr'))
    rw [store_loop_cons_ok root "yaml" true fs r _ _ t hstep, hrec]
    simp [List.append_assoc]

theorem store_v2_eq_of_loop (root : FPath) (recs : List V2Reco) (fmt : String) (ow : Bool)
    (fs fs1 : FS) (reps : List Report)
    (h : store_loop root fmt ow (if root ∈ fs.dirs then fs else addDir fs root) recs
      = (fs1, reps, none)) :
    store_v2 root recs fmt ow fs = (if ow then cleanup_empty root fs1 else fs1, reps, none) := by
  simp only [store_v2, h]

theorem foldl_cleanup_id (fs : FS) :
    ∀ l : List FPath, (∀ p ∈ l, ¬ (p ∈ fs.dirs ∧ isEmptyDir fs p)) →
      l.foldl (fun s p => if p ∈ s.dirs ∧ isEmptyDir s p then removedirs s p else s) fs = fs
  | [], _ => rfl
  | p :: l, h => by
    rw [List.foldl_cons, if_neg (h p (List.mem_cons_self p l))]
    exact foldl_cleanup_id fs l (fun q hq => h q (List.mem_cons_of_mem p hq))

theorem cleanup_empty_id (root : FPath) (fs : FS)
    (h : ∀ p ∈ fs.dirs, root <+: p → p ≠ root → ¬ isEmptyDir fs p) :
    cleanup_empty root fs = fs := by
  unfold cleanup_empty
  refine foldl_cleanup_id fs _ ?_
  intro p hp
  rw [List.mem_filter] at hp
  have hcond := of_decide_eq_true hp.2
  rintro ⟨_, hempty⟩
  exact h p hp.1 hcond.1 hcond.2 hempty

theorem no_empty_dirs (root : FPath) (recs : List V2Reco) (fs : FS)
    (hchar : ∀ q ∈ fs.dirs, q <+: root ∨ ∃ r ∈ recs, q <+: recoDir root r)
    (hfiles : ∀ r ∈ recs, recoEntry root r ∈ fs.files) :
    ∀ p ∈ fs.dirs, root <+: p → p ≠ root → ¬ isEmptyDir fs p := by
  intro p hp hrp hne hempty
  rcases hchar p hp with h | ⟨r, hr, hpd⟩
  · exact hne (h.eq_of_length (le_antisymm h.length_le hrp.length_le))
  · have hfile := hfiles r hr
    have hppath : p <+: recoPath root r := hpd.trans ⟨[fnameOf r], rfl⟩
    have hlen : p.length ≤ (recoDir root r).length := hpd.length_le
    have heq := hempty.2 (recoEntry root r) hfile (by rw [recoEntry_fst]; exact hppath)
    rw [recoEntry_fst] at heq
    have hl := congrArg List.length heq
    simp only [recoPath, List.length_append, List.length_singleton] at hl
    omega

/-- The filesystem after storing `recs` (all guid-bearing, distinct file
names) into an initially empty tree. -/
def run1FS (root : FPath) (recs : List V2Reco) : FS :=
  FS.mk (recs.foldl (fun ds r => addDirL ds (recoDir root r)) (addDirL [] root))
    (recs.map (recoEntry root))

theorem run1FS_root_mem (root : FPath) (recs : List V2Reco) :
    root ∈ (run1FS root recs).dirs :=
  foldl_addDirL_mono root recs _ root (addDirL_mem_self [] root)

theorem run1FS_reco_mem (root : FPath) (recs : List V2Reco) (r : V2Reco) (hr : r ∈ recs) :
    recoDir root r ∈ (run1FS root recs).dirs :=
  foldl_addDirL_mem root recs r hr _

theorem run1FS_cleanup (root : FPath) (recs : List V2Reco) :
    cleanup_empty root (run1FS root recs) = run1FS root recs := by
  refine cleanup_empty_id root _ (no_empty_dirs root recs _ ?_ ?_)
  · intro q hq
    rcases foldl_addDirL_subset root recs _ q hq with h | h
    · rcases addDirL_subset _ _ _ h with h' | h'
      · exact absurd h' (List.not_mem_nil q)
      · exact Or.inl h'
    · exact Or.inr h
  · intro r hr
    exact List.mem_map_of_mem _ hr

theorem store_v2_run1 (root : FPath) (recs : List V2Reco) (ow : Bool)
    (hg : ∀ r ∈ recs, (V2Reco.guid r).isSome)
    (hfn : (recs.map fnameOf).Nodup) :
    store_v2 root recs "yaml" ow emptyFS = (run1FS root recs, [], none) := by
  have h0 : (if root ∈ emptyFS.dirs then emptyFS else addDir emptyFS root)
      = FS.mk (addDirL [] root) [] := rfl
  have hloop : store_loop root "yaml" ow
      (if root ∈ emptyFS.dirs then emptyFS else addDir emptyFS root) recs
      = (run1FS root recs, [], none) := by
    rw [h0, store_loop_fresh root ow recs (FS.mk (addDirL [] root) []) hg hfn
      (fun r hr => rfl)]
    simp [run1FS]
  rw [store_v2_eq_of_loop root recs "yaml" ow emptyFS _ _ hloop]
  cases ow
  · rfl
  · simp [run1FS_cleanup]

theorem store_v2_run2_false (root : FPath) (recs : List V2Reco)
    (hg : ∀ r ∈ recs, (V2Reco.guid r).isSome)
    (hfn : (recs.map fnameOf).Nodup) :
    store_v2 root recs "yaml" false (run1FS root recs)
      = (run1FS root recs, recs.map (fun r => Report.conflict (recoPath root r)), none) := by
  have hloop : store_loop root "yaml" false
      (if root ∈ (run1FS root recs).dirs then run1FS root recs
        else addDir (run1FS root recs) root) recs
      = (run1FS root recs, recs.map (fun r => Report.conflict (recoPath root r)), none) := by
    rw [if_pos (run1FS_root_mem root recs)]
    exact store_loop_conflict root recs _ hg
      (fun r hr => rglobL_entries_self root recs r hfn hr)
      (fun r hr => run1FS_reco_mem root recs r hr)
  rw [store_v2_eq_of_loop root recs "yaml" false _ _ _ hloop]
  rfl

theorem store_v2_run2_true (root : FPath) (recs : List V2Reco)
    (hg : ∀ r ∈ recs, (V2Reco.guid r).isSome)
    (hfn : (recs.map fnameOf).Nodup) :
    store_v2 root recs "yaml" true (run1FS root recs) = (run1FS root recs, [], none) := by
  have hloop : store_loop root "yaml" true
      (if root ∈ (run1FS root recs).dirs then run1FS root recs
        else addDir (run1FS root recs) root) recs
      = (run1FS root recs, [], none) := by
    rw [if_pos (run1FS_root_mem root recs)]
    have h := store_loop_overwrite root recs (run1FS root recs) [] hg hfn
      (by simp [run1FS])
      (by intro r _ e he; exact absurd he (List.not_mem_nil e))
      (fun r hr => run1FS_reco_mem root recs r hr)
    simp only [List.nil_append] at h
    exact h
  rw [store_v2_eq_of_loop root recs "yaml" true _ _ _ hloop]
  simp [run1FS_cleanup]

/-- C4: persisting the same guid-bearing records (distinct guids) twice
into the same initially-fresh output root: with `overwrite = false` the
second run leaves the filesystem exactly unchanged (no new or duplicate
files) and reports one conflict per record; with `overwrite = true` both
runs succeed and the final tree holds exactly one file per guid, at the
path computed from the second run's record attributes, with no stale
files. -/
theorem store_v2_idempotent (root : FPath) (recs : List V2Reco)
    (hg : ∀ r ∈ recs, (V2Reco.guid r).isSome)
    (hnd : (recs.map V2Reco.guid).Nodup) :
    (store_v2 root recs "yaml" false emptyFS).2.2 = none ∧
    store_v2 root recs "yaml" false (store_v2 root recs "yaml" false emptyFS).1
      = ((store_v2 root recs "yaml" false emptyFS).1,
         recs.map (fun r => Report.conflict (recoPath root r)), none) ∧
    (store_v2 root recs "yaml" true emptyFS).2.2 = none ∧
    (store_v2 root recs "yaml" true (store_v2 root recs "yaml" true emptyFS).1).2.2 = none ∧
    (store_v2 root recs "yaml" true (store_v2 root recs "yaml" true emptyFS).1).2.1 = [] ∧
    (store_v2 root recs "yaml" true (store_v2 root recs "yaml" true emptyFS).1).1.files
      = recs.map (fun r => (recoPath root r, r)) := by
  have hfn := nodup_fnames recs hg hnd
  have h1f := store_v2_run1 root recs false hg hfn
  have h1t := store_v2_run1 root recs true hg hfn
  refine ⟨by rw [h1f], ?_, by rw [h1t], ?_, ?_, ?_⟩
  · rw [h1f]
    exact store_v2_run2_false root recs hg hfn
  · rw [h1t]
    show (store_v2 root recs "yaml" true (run1FS root recs)).2.2 = none
    rw [store_v2_run2_true root recs hg hfn]
  · rw [h1t]
    show (store_v2 root recs "yaml" true (run1FS root recs)).2.1 = []
    rw [store_v2_run2_true root recs hg hfn]
  · rw [h1t]
    show (store_v2 root recs "yaml" true (run1FS root recs)).1.files
      = recs.map (fun r => (recoPath root r, r))
    rw [store_v2_run2_true root recs hg hfn]
    rfl

/-- A second guid-bearing record for the idempotence witness. -/
def rec2 : V2Reco := { guid := some "def-456", title := some "Enable Y" }

/-- C4 witness: a concrete two-record batch stored twice with overwrite
ends with exactly one file per guid at the computed paths. -/
theorem store_v2_idempotent_witness :
    (store_v2 ["out"] [rec1, rec2] "yaml" true
        (store_v2 ["out"] [rec1, rec2] "yaml" true emptyFS).1).1.files
      = [rec1, rec2].map (fun r => (recoPath ["out"] r, r)) :=
  (store_v2_idempotent ["out"] [rec1, rec2] (by decide) (by decide)).2.2.2.2.2
